import Mathlib

/-!
Verification development for the `vscode-todo-md` task extension.

This file shallowly embeds the due-date engine of `src/timeUtils.ts`, the
recurrence reset pass of `documentActions.ts` (`resetAllRecurringTasks`) and
the tree-view grouping of `treeViewProviders/treeViews.ts`, and proves or
refutes the specified properties about them.

Modelling conventions:
- JavaScript `Date` instants are modelled as `Int` milliseconds since the
  epoch.  The local time zone is modelled with zero UTC offset, so local
  midnight is a multiple of `ONE_DAY_IN_MS`; all properties below are at day
  granularity, where this is faithful.
- The ambient clock (`new Date()` inside the source functions) is threaded
  explicitly as a `now : Int` parameter.
- JavaScript strings are handled as `String` / `List Char`.
- `Math.trunc` division and the JS `%` operator are `Int.tdiv` / `Int.tmod`
  (both round toward zero, as in JS).
-/

/-- `DueState` enum from `types.ts`: `{NotDue, Due, Overdue, Invalid}`. -/
inductive DueState where
  | notDue
  | due
  | overdue
  | invalid
deriving DecidableEq, Repr, BEq

/-- `DueReturn` record from `timeUtils.ts`. -/
structure DueReturn where
  isRecurring : Bool
  isRange : Bool
  isDue : DueState
deriving DecidableEq, Repr

/-- `ONE_DAY_IN_MS` constant from `timeUtils.ts`. -/
def ONE_DAY_IN_MS : Int := 86400000

/-- Calendar-day index of an instant: the number of the local calendar day
containing it (floor of the timestamp divided by one day). -/
def epochDay (t : Int) : Int := Int.fdiv t ONE_DAY_IN_MS

/-- `calcDiffInDays` from `timeUtils.ts`:
`Math.trunc((+d2 - +d1) / ONE_DAY_IN_MS)`. -/
def calcDiffInDays (d1 d2 : Int) : Int := Int.tdiv (d2 - d1) ONE_DAY_IN_MS

/-- `shortenToDate` from `timeUtils.ts`: `new Date(new Date(date).setHours(0,0,0,0))`,
i.e. the instant truncated to its local midnight. -/
def shortenToDate (t : Int) : Int := ONE_DAY_IN_MS * epochDay t

/-- `new Date().getDay()`: weekday index 0 (Sunday) .. 6 (Saturday).
January 1 1970 (day 0) was a Thursday (4). -/
def weekdayOf (t : Int) : Int := Int.emod (epochDay t + 4) 7

/-- Day index (days since 1970-01-01) of the civil date `y-m-d`, `m` 1-based;
standard civil-from-days conversion, valid for all integers. -/
def daysFromCivil (y m d : Int) : Int :=
  let y' := y - (if m ≤ 2 then 1 else 0)
  let era := Int.fdiv y' 400
  let yoe := y' - era * 400
  let mp := Int.emod (m + 9) 12
  let doy := Int.fdiv (153 * mp + 2) 5 + (d - 1)
  let doe := yoe * 365 + Int.fdiv yoe 4 - Int.fdiv yoe 100 + doy
  era * 146097 + doe - 719468

/-- `new Date(year, month, day)` (local time, `month` 0-based): JS normalises
out-of-range month and day fields by rolling them over; returns the timestamp
of the resulting local midnight. -/
def jsDateYMD (year month day : Int) : Int :=
  let y := year + Int.fdiv month 12
  let m := Int.emod month 12
  ONE_DAY_IN_MS * (daysFromCivil y (m + 1) 1 + (day - 1))

/-- JS `\w` character class: `[A-Za-z0-9_]`. -/
def isWordChar (c : Char) : Bool := c.isAlpha || c.isDigit || c == '_'

/-- Numeric value of a digit character. -/
def digitVal (c : Char) : Int := (c.toNat : Int) - 48

/-- Numeric value of a digit string (`Number(...)` on an all-digit group). -/
def digitsToInt (cs : List Char) : Int := cs.foldl (fun a c => a * 10 + digitVal c) 0

/-- Attempt of `dueWithDateRegexp = /(\d\d\d\d)-(\d\d)-(\d\d)(-(\w+))?/` at the
start of `cs`: four digits, dash, two digits, dash, two digits, then the
optional group `(-(\w+))?` (a dash followed by a greedy nonempty run of word
characters).  Returns `(year, month, day, optional algorithm group)`. -/
def tryDueDateAt (cs : List Char) : Option (Int × Int × Int × Option (List Char)) :=
  match cs with
  | y1 :: y2 :: y3 :: y4 :: '-' :: m1 :: m2 :: '-' :: d1 :: d2 :: rest =>
    if y1.isDigit && y2.isDigit && y3.isDigit && y4.isDigit &&
       m1.isDigit && m2.isDigit && d1.isDigit && d2.isDigit then
      let alg : Option (List Char) :=
        match rest with
        | '-' :: r =>
          let w := r.takeWhile isWordChar
          if w.isEmpty then none else some w
        | _ => none
      some (digitsToInt [y1, y2, y3, y4], digitsToInt [m1, m2], digitsToInt [d1, d2], alg)
    else none
  | _ => none

/-- `dueWithDateRegexp.exec(due)`: leftmost match of the date pattern anywhere
in the string, or `none`. -/
def execDueWithDate : List Char → Option (Int × Int × Int × Option (List Char))
  | [] => none
  | c :: rest =>
    match tryDueDateAt (c :: rest) with
    | some r => some r
    | none => execDueWithDate rest

/-- Attempt of `everyNDayRegexp = /e(\d+)d/` at the start of `cs`:
`'e'`, a nonempty greedy digit run, then `'d'`. -/
def tryEveryNDayAt (cs : List Char) : Bool :=
  match cs with
  | 'e' :: rest =>
    let digits := rest.takeWhile Char.isDigit
    !digits.isEmpty && (rest.drop digits.length).head? == some 'd'
  | _ => false

/-- `everyNDayRegexp.exec(dueAlgorithm)` used only as a guard in
`parseDueDate` (its captured interval is dead code in the source, because
`isDueWithDate` re-parses the string). -/
def execEveryNDay : List Char → Bool
  | [] => false
  | c :: rest => tryEveryNDayAt (c :: rest) || execEveryNDay rest

/-- The tail `\s?(d|days?)` of the `isDueWithDate` pattern: an optional
whitespace character followed by the unit.  The alternation `(d|days?)` tries
the single-character alternative `d` first, so it succeeds exactly when the
next character is `'d'`. -/
def wsThenUnit (cs : List Char) : Bool :=
  match cs with
  | [] => false
  | c :: rest => if c.isWhitespace then rest.head? == some 'd' else c == 'd'

/-- Body of `/(?!every|each|e)\s?(\d+)?\s?(d|days?)/` after the first optional
whitespace has been resolved: a greedy optional digit group, optional
whitespace, then the unit.  Returns the captured digit group when the pattern
matches here (`some none` = match with no digits). -/
def everyPatternCore (cs : List Char) : Option (Option Nat) :=
  let digits := cs.takeWhile Char.isDigit
  if digits.isEmpty then
    if wsThenUnit cs then some none else none
  else
    if wsThenUnit (cs.drop digits.length) then
      some (some (digits.foldl (fun a c => a * 10 + (c.toNat - 48)) 0))
    else none

/-- Attempt of the `isDueWithDate` pattern at one position.  The negative
lookahead `(?!every|each|e)` fails exactly when the next character is `'e'`
(the one-letter alternative subsumes the other two). -/
def tryEveryPatternAt (cs : List Char) : Option (Option Nat) :=
  match cs with
  | [] => none
  | c :: rest =>
    if c == 'e' then none
    else everyPatternCore (if c.isWhitespace then rest else c :: rest)

/-- `/(?!every|each|e)\s?(\d+)?\s?(d|days?)/.exec(dueDate)`: leftmost match,
returning the captured interval digit group. -/
def execEveryPattern : List Char → Option (Option Nat)
  | [] => none
  | c :: rest =>
    match tryEveryPatternAt (c :: rest) with
    | some r => some r
    | none => execEveryPattern rest

/-- JS `x % n === 0` with `Int.tmod` (JS remainder); division by zero yields
`NaN` in JS and `NaN === 0` is false, hence the zero guard. -/
def jsModIsZero (x n : Int) : Bool :=
  if n == 0 then false else Int.tmod x n == 0

/-- JS `due.split(',')`: split on a single-character delimiter, keeping empty
segments. -/
def splitOnComma : List Char → List (List Char)
  | [] => [[]]
  | c :: rest =>
    if c = ',' then [] :: splitOnComma rest
    else
      match splitOnComma rest with
      | [] => [[c]]
      | r :: rs => (c :: r) :: rs

/-- JS `due.split('..')`: split on the two-character delimiter, leftmost and
non-overlapping, keeping empty segments. -/
def splitOnDotDot : List Char → List (List Char)
  | [] => [[]]
  | '.' :: '.' :: rest => [] :: splitOnDotDot rest
  | c :: rest =>
    match splitOnDotDot rest with
    | [] => [[c]]
    | r :: rs => (c :: r) :: rs

/-- Greedy bounded digit group: take up to `n` leading digits. -/
def takeDigitsUpTo : Nat → List Char → List Char × List Char
  | 0, cs => ([], cs)
  | _ + 1, [] => ([], [])
  | n + 1, c :: rest =>
    if c.isDigit then
      let (ds, rs) := takeDigitsUpTo n rest
      (c :: ds, rs)
    else ([], c :: rest)

/-- Optional single-character class (an optional dash-or-slash separator, or
an optional colon): consume one leading character satisfying `p` when
present. -/
def skipOpt (p : Char → Bool) (cs : List Char) : List Char :=
  match cs with
  | c :: rest => if p c then rest else c :: rest
  | [] => []

/-- dayjs's default date parser (`parseDate` in dayjs core; the extension
loads no `customParseFormat` plugin, so this is what `dayjs(d1)` runs).  The
anchored pattern is: 4-digit year, optional dash-or-slash, optional 1-2 digit
month, optional dash-or-slash, 0-2 digit day, a run of `T`/`t`/whitespace,
optional 1-2 digit hours, optional colon, optional 1-2 digit minutes,
optional colon, optional 1-2 digit seconds, optional dot-or-colon, optional
digit run of milliseconds.  When it matches, dayjs builds
`new Date(year, month - 1 || 0, day || 1, hours || 0, minutes || 0,
seconds || 0, ms.substring(0, 3))` — local time, with the usual `Date`
rollover of out-of-range fields.  All groups are taken greedily; this is
faithful because every later digit group (down to the unbounded milliseconds)
absorbs leftover digits, so the greedy path succeeds whenever some
backtracking path does. -/
def dayjsRegexParse (cs : List Char) : Option Int :=
  let (yd, r1) := takeDigitsUpTo 4 cs
  if yd.length != 4 then none
  else
    let r2 := skipOpt (fun c => c == '-' || c == '/') r1
    let (mo, r3) := takeDigitsUpTo 2 r2
    let r4 := skipOpt (fun c => c == '-' || c == '/') r3
    let (dy, r5) := takeDigitsUpTo 2 r4
    let r6 := r5.dropWhile (fun c => c == 'T' || c == 't' || c.isWhitespace)
    let (hh, r7) := takeDigitsUpTo 2 r6
    let r8 := skipOpt (fun c => c == ':') r7
    let (mi, r9) := takeDigitsUpTo 2 r8
    let r10 := skipOpt (fun c => c == ':') r9
    let (ss, r11) := takeDigitsUpTo 2 r10
    let r12 := skipOpt (fun c => c == '.' || c == ':') r11
    let msd := r12.takeWhile Char.isDigit
    if !(r12.drop msd.length).isEmpty then none
    else
      let y := digitsToInt yd
      let m := if mo.isEmpty then 0 else digitsToInt mo - 1
      let d := if dy.isEmpty then 1 else digitsToInt dy
      some (jsDateYMD y m d +
        (if hh.isEmpty then 0 else digitsToInt hh) * 3600000 +
        (if mi.isEmpty then 0 else digitsToInt mi) * 60000 +
        (if ss.isEmpty then 0 else digitsToInt ss) * 1000 +
        digitsToInt (msd.take 3))

/-- Model of `dayjs(string)`: strings ending in `Z`/`z` skip the dayjs
pattern, and strings the pattern rejects fall back to `new Date(string)` —
the host parser's remaining formats (RFC 2822 names, time-zoned ISO strings)
lie outside the due-date mini-language, so both fallbacks are modelled as an
invalid instant (`none`; every dayjs comparison on an invalid instant is
false). -/
def dayjsParse (cs : List Char) : Option Int :=
  if cs.getLast? == some 'Z' || cs.getLast? == some 'z' then none
  else dayjsRegexParse cs

/-- Calendar-day index of a parsed range endpoint (all comparisons in
`isDueBetween` are at `'day'` granularity). -/
def dayjsParseDay (cs : List Char) : Option Int := (dayjsParse cs).map epochDay

/-- `date.isBefore(now, 'day')` with a possibly invalid date: false for an
invalid instant. -/
def dayjsIsBeforeDay (d : Option Int) (nowDay : Int) : Bool :=
  match d with
  | some x => decide (x < nowDay)
  | none => false

/-- `dayjs().isBetween(d1, d2, 'day', '[]')`: inclusive day-granularity
containment, false if either bound is invalid. -/
def dayjsIsBetweenDay (d1 d2 : Option Int) (nowDay : Int) : Bool :=
  match d1, d2 with
  | some x, some y => decide (x ≤ nowDay) && decide (nowDay ≤ y)
  | _, _ => false

/-- `isDueBetween(d1, d2)` from `timeUtils.ts`, with the ambient `dayjs()`
clock passed as `now`. -/
def isDueBetween (now : Int) (d1 d2 : List Char) : DueReturn :=
  let nowDay := epochDay now
  let date1 := dayjsParseDay d1
  let date2 := dayjsParseDay d2
  let isDue :=
    if dayjsIsBeforeDay date1 nowDay && dayjsIsBeforeDay date2 nowDay then
      DueState.overdue
    else if dayjsIsBetweenDay date1 date2 nowDay then DueState.due
    else DueState.notDue
  { isRecurring := false, isRange := true, isDue := isDue }

/-- `isDueExactDate(date)` from `timeUtils.ts`, with the ambient `new Date()`
clock passed as `now`. -/
def isDueExactDate (now : Int) (date : Int) : DueState :=
  if now < date then DueState.notDue
  else if calcDiffInDays (shortenToDate now) (shortenToDate date) == 0 then DueState.due
  else DueState.overdue

/-- `isDueToday(due)` from `timeUtils.ts`: the `ed` alias, then the
case-sensitive three-letter weekday names compared against the current
weekday; anything else is `notDue`. -/
def isDueToday (now : Int) (due : List Char) : DueState :=
  if due == "ed".toList then DueState.due
  else
    let day := weekdayOf now
    if due == "Sun".toList && day == 0 then DueState.due
    else if due == "Mon".toList && day == 1 then DueState.due
    else if due == "Tue".toList && day == 2 then DueState.due
    else if due == "Wed".toList && day == 3 then DueState.due
    else if due == "Thu".toList && day == 4 then DueState.due
    else if due == "Fri".toList && day == 5 then DueState.due
    else if due == "Sat".toList && day == 6 then DueState.due
    else DueState.notDue

/-- Body of `isDueWithDate` after the `dueDateStart === undefined` guard:
run the interval pattern over the expression; on a match the unit group is
necessarily `d` (so the `/^(d|days?)$/` test passes and the empty months
branch is dead), and the task is due iff the whole-day difference from the
anchor satisfies `diffInDays % interval === 0`; a missing digit group means
interval 1. -/
def isDueWithDateCore (dueDate : List Char) (dueDateStart : Int) (target : Int) : DueState :=
  match execEveryPattern dueDate with
  | some intervalGroup =>
    let interval : Int := match intervalGroup with | some n => (n : Int) | none => 1
    let diffInDays := calcDiffInDays (shortenToDate dueDateStart) (shortenToDate target)
    if jsModIsZero diffInDays interval then DueState.due else DueState.notDue
  | none => DueState.notDue

/-- `isDueWithDate(dueDate, dueDateStart, date)` from `timeUtils.ts`: throws
(modelled as `Except.error`) exactly when the anchor `dueDateStart` is
`undefined`; otherwise evaluates the interval algorithm. -/
def isDueWithDate (dueDate : List Char) (dueDateStart : Option Int) (target : Int) :
    Except String DueState :=
  match dueDateStart with
  | none => Except.error "dueDate was specified, but dueDateStart is missing"
  | some start => Except.ok (isDueWithDateCore dueDate start target)

/-- `parseDueDate(due)` from `timeUtils.ts`, with the ambient clock passed as
`now`: the `today` literal, then the `..` range split, then the
`YYYY-MM-DD(-alg)?` regex (an exact date when the algorithm group is absent, a
recurring interval when it is present and matches `e(\d+)d`), and otherwise
the recurring weekday fallback. -/
def parseDueDate (now : Int) (due : List Char) : DueReturn :=
  if due == "today".toList then
    { isRecurring := false, isRange := false, isDue := DueState.due }
  else
    match splitOnDotDot due with
    | p1 :: p2 :: _ => isDueBetween now p1 p2
    | _ =>
      match execDueWithDate due with
      | some (year, monthNum, day, algGroup) =>
        let dateObject := jsDateYMD year (monthNum - 1) day
        match algGroup with
        | none =>
          { isRecurring := false, isRange := false, isDue := isDueExactDate now dateObject }
        | some dueAlgorithm =>
          if execEveryNDay dueAlgorithm then
            { isRecurring := true, isRange := false,
              isDue := isDueWithDateCore dueAlgorithm dateObject now }
          else
            { isRecurring := true, isRange := false, isDue := DueState.notDue }
      | none =>
        { isRecurring := true, isRange := false, isDue := isDueToday now due }

/-- `parseDue(due)` from `timeUtils.ts`: split the expression on commas, drop
empty segments, and parse each alternative independently. -/
def parseDue (now : Int) (due : String) : List DueReturn :=
  ((splitOnComma due.toList).filter (fun d => !d.isEmpty)).map (parseDueDate now)

/-- Due information carried by a task (`task.due`), reduced to the fields
`resetAllRecurringTasks` reads: the raw expression and its recurrence flag. -/
structure DueLite where
  raw : String
  isRecurring : Bool
deriving DecidableEq, Repr

/-- The fields of a task that `resetAllRecurringTasks` in
`documentActions.ts` reads. -/
structure RecurringTask where
  due : Option DueLite
  done : Bool
  overdue : Bool
  hasCount : Bool
deriving DecidableEq, Repr

/-- Descriptive text edits emitted by `resetAllRecurringTasks`: the overdue
tag carries the calendar day (`date.format(DATE_FORMAT)`) as a day index. -/
inductive ResetEdit where
  | insertOverdueTag (day : Int)
  | removeDoneSymbol
  | removeCompletionDate
  | setCountZero
deriving DecidableEq, Repr

/-- `s === DueState.due || s === DueState.overdue` check in the reset loop. -/
def isDueOrOverdue (s : DueState) : Bool := s == DueState.due || s == DueState.overdue

/-- The loop `for (let i = daysSinceLastVisit; i > 0; i--) { ...; break }`:
test `i = n, n-1, ..., 1` in that order and return the first `i` whose day
hits, if any. -/
def scanOverdue (isHit : Nat → Bool) : Nat → Option Nat
  | 0 => none
  | Nat.succ k => if isHit (k + 1) then some (k + 1) else scanOverdue isHit k

/-- Per-task body of `resetAllRecurringTasks(document, lastVisit)` from
`documentActions.ts`, as edit descriptors.  `evalDue raw target` models
`new DueDate(raw, { targetDate: target }).isDue` — the `DueDate` class lives
in `dueDate.ts`, outside this snapshot, so the evaluation it performs is a
parameter here.  For a recurring task: a done task gets its done marker and
completion date cleared; an undone task that is not already overdue, when
`now` and `lastVisit` fall on different calendar days, is scanned from
`now - daysSinceLastVisit` days (the last-visit day) up to `now - 1` day, and
the first day found `due`/`overdue` is emitted as an overdue tag; a counter
is always reset to zero. -/
def taskResetEdits (now lastVisit : Int) (evalDue : String → Int → DueState)
    (task : RecurringTask) : List ResetEdit :=
  match task.due with
  | some d =>
    if d.isRecurring then
      (if task.done then [ResetEdit.removeDoneSymbol, ResetEdit.removeCompletionDate]
       else if !task.overdue && !(epochDay now == epochDay lastVisit) then
         let daysSinceLastVisit := epochDay now - epochDay lastVisit
         match scanOverdue
             (fun i => isDueOrOverdue (evalDue d.raw (now - (i : Int) * ONE_DAY_IN_MS)))
             daysSinceLastVisit.toNat with
         | some i => [ResetEdit.insertOverdueTag (epochDay (now - (i : Int) * ONE_DAY_IN_MS))]
         | none => []
       else [])
      ++ (if task.hasCount then [ResetEdit.setCountZero] else [])
    else []
  | none => []

/-- `resetAllRecurringTasks` over a parsed document: concatenation of the
per-task edits in document order. -/
def resetAllRecurringTasks (now lastVisit : Int) (evalDue : String → Int → DueState)
    (tasks : List RecurringTask) : List ResetEdit :=
  tasks.foldl (fun acc t => acc ++ taskResetEdits now lastVisit evalDue t) []

/-- `TreeItemSortType` enum from `types.ts`. -/
inductive TreeItemSortType where
  | alphabetic
  | count
deriving DecidableEq, Repr

/-- The three sorting options of `$config` read by `groupAndSortTreeItems`. -/
structure TreeViewConfig where
  sortTagsView : TreeItemSortType
  sortProjectsView : TreeItemSortType
  sortContextsView : TreeItemSortType
deriving DecidableEq, Repr

/-- The task fields read by `groupAndSortTreeItems`. -/
structure TheTask where
  lineNumber : Nat
  tags : List String
  projects : List String
  contexts : List String
deriving DecidableEq, Repr

/-- `ItemForProvider` from `types.ts`: one tree-view group. -/
structure ItemForProvider where
  title : String
  tasks : List TheTask
deriving DecidableEq, Repr

/-- `ParsedItems` returned by `groupAndSortTreeItems`. -/
structure ParsedItems where
  tags : List String
  contexts : List String
  projects : List String
  tagsForProvider : List ItemForProvider
  projectsForProvider : List ItemForProvider
  contextsForProvider : List ItemForProvider
deriving DecidableEq, Repr

/-- Push `t` onto the bucket of `key` in a JS-object-like map (string keys in
insertion order), creating the bucket at the end when absent. -/
def pushToBucket (m : List (String × List TheTask)) (key : String) (t : TheTask) :
    List (String × List TheTask) :=
  match m with
  | [] => [(key, [t])]
  | (k, ts) :: rest =>
    if k == key then (k, ts ++ [t]) :: rest
    else (k, ts) :: pushToBucket rest key t

/-- The single `forEachTask` pass of `groupAndSortTreeItems`: fold every task
of the global store into the tag/project/context maps.  `forEachTask` (from
`utils/taskUtils.ts`, outside this snapshot) iterates the tasks held in the
global extension state, which is passed here explicitly as `stateTasks`. -/
def groupMaps (stateTasks : List TheTask) :
    List (String × List TheTask) × List (String × List TheTask) ×
      List (String × List TheTask) :=
  stateTasks.foldl
    (fun maps task =>
      let tagMap := task.tags.foldl (fun m tag => pushToBucket m tag task) maps.1
      let projectMap := task.projects.foldl (fun m p => pushToBucket m p task) maps.2.1
      let contextMap := task.contexts.foldl (fun m c => pushToBucket m c task) maps.2.2
      (tagMap, projectMap, contextMap))
    ([], [], [])

/-- Stable insertion of `x` into a sorted list: `x` goes after every element
`y` with `le y x` (JS `Array.prototype.sort` is stable). -/
def insertSorted (le : ItemForProvider → ItemForProvider → Bool) (x : ItemForProvider) :
    List ItemForProvider → List ItemForProvider
  | [] => [x]
  | y :: ys => if le y x then y :: insertSorted le x ys else x :: y :: ys

/-- Stable sort by the boolean preorder `le`. -/
def stableSortBy (le : ItemForProvider → ItemForProvider → Bool) :
    List ItemForProvider → List ItemForProvider
  | [] => []
  | x :: xs => insertSorted le x (stableSortBy le xs)

/-- `sortItemsForProvider` from `treeViews.ts`: alphabetic sorting compares
titles (`localeCompare`, modelled as string order); count sorting compares
bucket sizes descending. -/
def sortItemsForProvider (items : List ItemForProvider) (sortType : TreeItemSortType) :
    List ItemForProvider :=
  match sortType with
  | TreeItemSortType.alphabetic => stableSortBy (fun a b => a.title ≤ b.title) items
  | TreeItemSortType.count => stableSortBy (fun a b => b.tasks.length ≤ a.tasks.length) items

/-- `groupAndSortTreeItems(tasks)` from `treeViews.ts`.  The `tasks` parameter
mirrors the source signature; the source body never reads it — it iterates
the global task store via `forEachTask` (`stateTasks` here) instead. -/
def groupAndSortTreeItems (cfg : TreeViewConfig) (stateTasks : List TheTask)
    (tasks : List TheTask) : ParsedItems :=
  let maps := groupMaps stateTasks
  let tagsForProvider := maps.1.map (fun kv => ItemForProvider.mk kv.1 kv.2)
  let projectsForProvider := maps.2.1.map (fun kv => ItemForProvider.mk kv.1 kv.2)
  let contextsForProvider := maps.2.2.map (fun kv => ItemForProvider.mk kv.1 kv.2)
  { tags := maps.1.map Prod.fst
    contexts := maps.2.2.map Prod.fst
    projects := maps.2.1.map Prod.fst
    tagsForProvider := sortItemsForProvider tagsForProvider cfg.sortTagsView
    projectsForProvider := sortItemsForProvider projectsForProvider cfg.sortProjectsView
    contextsForProvider := sortItemsForProvider contextsForProvider cfg.sortContextsView }

/-- `isDueExactDate` only produces `notDue`, `due` or `overdue`. -/
theorem isDueExactDate_ne_invalid (now date : Int) :
    isDueExactDate now date ≠ DueState.invalid := by
  unfold isDueExactDate
  split
  · exact fun h => DueState.noConfusion h
  · split
    · exact fun h => DueState.noConfusion h
    · exact fun h => DueState.noConfusion h

/-- Claim C1: the spec says every string matching no grammar branch, and each
of the fixtures `2020`, `2020-05-2`, `2020-07-31|e14`, `2020-07-35`, yields
`Invalid`, with exact dates strictly validated.  The engine in
`timeUtils.ts` has no `Invalid` outcome at all: `2020` and `2020-05-2` fall
through to the recurring weekday branch and come back `NotDue`;
`2020-07-31|e14` is parsed as the plain exact date `2020-07-31`; and
`2020-07-35` is not rejected but rolled over to `2020-08-04` (day 18478),
where it evaluates `Due`.  The repository's own due-date tests assert
`Invalid` for all four fixtures, so this is recorded as a code bug. -/
theorem parseDue_invalid_fixtures_code_bug (now : Int) :
    (parseDue now "2020").map DueReturn.isDue = [DueState.notDue] ∧
    (parseDue now "2020").map DueReturn.isRecurring = [true] ∧
    (parseDue now "2020-05-2").map DueReturn.isDue = [DueState.notDue] ∧
    (parseDue now "2020-07-31|e14").map DueReturn.isDue ≠ [DueState.invalid] ∧
    (parseDue now "2020-07-31|e14").map DueReturn.isRecurring = [false] ∧
    (parseDue now "2020-07-35").map DueReturn.isDue ≠ [DueState.invalid] ∧
    (parseDue (18478 * ONE_DAY_IN_MS) "2020-07-35").map DueReturn.isDue = [DueState.due] := by
  refine ⟨rfl, rfl, rfl, ?_, rfl, ?_, by decide⟩
  · have h : (parseDue now "2020-07-31|e14").map DueReturn.isDue =
        [isDueExactDate now (jsDateYMD 2020 6 31)] := rfl
    rw [h]
    intro hbad
    exact isDueExactDate_ne_invalid now (jsDateYMD 2020 6 31) (by simpa using hbad)
  · have h : (parseDue now "2020-07-35").map DueReturn.isDue =
        [isDueExactDate now (jsDateYMD 2020 6 35)] := rfl
    rw [h]
    intro hbad
    exact isDueExactDate_ne_invalid now (jsDateYMD 2020 6 35) (by simpa using hbad)

/-- Claim C2: the spec says weekday names — full or 3-letter, any letter
case — are recurring and `Due` exactly when the target date's weekday
matches.  In `timeUtils.ts` the weekday branch (`isDueToday`) compares the
expression only against the capitalised three-letter literals
`Sun`..`Sat` and evaluates against the current clock: on Monday
2018-01-01 (day 17532, weekday 1) the expressions `monday` and `mon`
come back `NotDue` while `Mon` is `Due`.  The repository's own tests assert
`monday` and `mon` are `Due` on that Monday, so this is recorded as a code
bug. -/
theorem isDueToday_weekday_case_code_bug :
    weekdayOf (17532 * ONE_DAY_IN_MS) = 1 ∧
    (parseDue (17532 * ONE_DAY_IN_MS) "monday").map DueReturn.isDue = [DueState.notDue] ∧
    (parseDue (17532 * ONE_DAY_IN_MS) "monday").map DueReturn.isRecurring = [true] ∧
    (parseDue (17532 * ONE_DAY_IN_MS) "mon").map DueReturn.isDue = [DueState.notDue] ∧
    (parseDue (17532 * ONE_DAY_IN_MS) "Mon").map DueReturn.isDue = [DueState.due] := by
  refine ⟨by decide, rfl, rfl, rfl, by decide⟩

/-- Claim C3: the spec says `2018-01-01|e2d` is a recurring every-2-days
expression, `Due` on 2018-01-01 (day 17532), `NotDue` on 2018-01-02 and `Due`
on 2018-01-03, and in general an interval recurrence is `Due` only for
non-negative multiples of the interval.  In `timeUtils.ts` the algorithm
suffix is separated by `-`, not `|`, so `2018-01-01|e2d` parses as the plain
exact date `2018-01-01`: non-recurring, `Due`/`Overdue`/`Overdue` on the
three fixture days.  Even in the `-` grammar the sign condition is absent:
`2018-01-05-e2d` is `Due` on 2018-01-01 (difference -4).  The repository's
own tests assert the `|` fixture behaviour, so this is recorded as a code
bug. -/
theorem interval_fixture_code_bug :
    (parseDue (17532 * ONE_DAY_IN_MS) "2018-01-01|e2d" =
      [{ isRecurring := false, isRange := false, isDue := DueState.due }]) ∧
    (parseDue (17533 * ONE_DAY_IN_MS) "2018-01-01|e2d" =
      [{ isRecurring := false, isRange := false, isDue := DueState.overdue }]) ∧
    (parseDue (17534 * ONE_DAY_IN_MS) "2018-01-01|e2d" =
      [{ isRecurring := false, isRange := false, isDue := DueState.overdue }]) ∧
    (parseDue (17532 * ONE_DAY_IN_MS) "2018-01-01-e2d" =
      [{ isRecurring := true, isRange := false, isDue := DueState.due }]) ∧
    (parseDue (17533 * ONE_DAY_IN_MS) "2018-01-01-e2d" =
      [{ isRecurring := true, isRange := false, isDue := DueState.notDue }]) ∧
    (parseDue (17534 * ONE_DAY_IN_MS) "2018-01-01-e2d" =
      [{ isRecurring := true, isRange := false, isDue := DueState.due }]) ∧
    (parseDue (17532 * ONE_DAY_IN_MS) "2018-01-05-e2d").map DueReturn.isDue =
      [DueState.due] := by
  refine ⟨by decide, by decide, by decide, by decide, by decide, by decide, by decide⟩

/-- Claim C4: the spec says a comma-delimited expression combines its
alternatives (`Due` if any is `Due`, and so on) and `mon,sun` is `Due` on any
Monday or Sunday.  `parseDue` in `timeUtils.ts` only splits and returns the
per-alternative list — no combination logic exists in the module — and
because weekday matching is case-sensitive (`Mon`, not `mon`), both
alternatives of `mon,sun` evaluate `NotDue` even on Monday 2018-01-01 (day
17532) and Sunday 2018-01-07 (day 17538), so no combination of them could be
`Due`.  The repository's own tests assert `mon,sun` is `Due` on those days,
so this is recorded as a code bug. -/
theorem parseDue_comma_code_bug :
    weekdayOf (17532 * ONE_DAY_IN_MS) = 1 ∧
    weekdayOf (17538 * ONE_DAY_IN_MS) = 0 ∧
    (parseDue (17532 * ONE_DAY_IN_MS) "mon,sun").map DueReturn.isDue =
      [DueState.notDue, DueState.notDue] ∧
    (parseDue (17538 * ONE_DAY_IN_MS) "mon,sun").map DueReturn.isDue =
      [DueState.notDue, DueState.notDue] ∧
    (parseDue (17532 * ONE_DAY_IN_MS) "Mon,Sun").map DueReturn.isDue =
      [DueState.due, DueState.notDue] := by
  refine ⟨by decide, by decide, by decide, by decide, by decide⟩

/-- Claim C9: `groupAndSortTreeItems` never reads its `tasks` parameter — it
iterates the global task store via `forEachTask` — so for a fixed global
store the returned grouping is identical whatever argument list is passed. -/
theorem groupAndSortTreeItems_ignores_argument (cfg : TreeViewConfig)
    (stateTasks tasks1 tasks2 : List TheTask) :
    groupAndSortTreeItems cfg stateTasks tasks1 =
      groupAndSortTreeItems cfg stateTasks tasks2 := rfl

/-- `splitOnComma` never returns the empty list of segments. -/
theorem splitOnComma_ne_nil (l : List Char) : splitOnComma l ≠ [] := by
  induction l with
  | nil => simp [splitOnComma]
  | cons c rest ih =>
    unfold splitOnComma
    split
    · simp
    · cases h : splitOnComma rest with
      | nil => exact absurd h ih
      | cons r rs => simp

/-- Appending a trailing comma appends one empty segment to the split. -/
theorem splitOnComma_append_comma (l : List Char) :
    splitOnComma (l ++ [',']) = splitOnComma l ++ [[]] := by
  induction l with
  | nil => rfl
  | cons c rest ih =>
    by_cases hc : c = ','
    · subst hc
      simp [splitOnComma, ih]
    · rcases h : splitOnComma rest with _ | ⟨r, rs⟩
      · exact absurd h (splitOnComma_ne_nil rest)
      · simp [splitOnComma, if_neg hc, ih, h]

/-- Claim C10: `parseDue` drops zero-length alternatives, so trailing,
leading or doubled commas change nothing and the empty expression yields the
empty list of `DueReturn`s (no `Invalid` entry). -/
theorem parseDue_drops_empty_alternatives (now : Int) (l : List Char) :
    parseDue now (String.mk (l ++ [','])) = parseDue now (String.mk l) ∧
    parseDue now (String.mk (',' :: l)) = parseDue now (String.mk l) ∧
    parseDue now "" = [] ∧
    parseDue now "mon," = parseDue now "mon" ∧
    parseDue now "mon,,sun" = parseDue now "mon,sun" := by
  refine ⟨?_, ?_, rfl, rfl, rfl⟩
  · show ((splitOnComma (l ++ [','])).filter (fun d => !d.isEmpty)).map (parseDueDate now) =
        ((splitOnComma l).filter (fun d => !d.isEmpty)).map (parseDueDate now)
    rw [splitOnComma_append_comma, List.filter_append]
    simp [List.filter]
  · show ((splitOnComma (',' :: l)).filter (fun d => !d.isEmpty)).map (parseDueDate now) =
        ((splitOnComma l).filter (fun d => !d.isEmpty)).map (parseDueDate now)
    have h : splitOnComma (',' :: l) = [] :: splitOnComma l := by
      simp [splitOnComma]
    rw [h]
    simp [List.filter]

/-- Claim C8: `isDueWithDate` throws exactly when the anchor start date is
`undefined`, and with any defined anchor it returns a `DueState` for every
expression string and target. -/
theorem isDueWithDate_error_iff_no_anchor (s : List Char) (t : Int) :
    (∃ e, isDueWithDate s none t = Except.error e) ∧
    (∀ d : Int, isDueWithDate s (some d) t = Except.ok (isDueWithDateCore s d t)) ∧
    (∀ start : Option Int,
      (∃ e, isDueWithDate s start t = Except.error e) ↔ start = none) := by
  refine ⟨⟨_, rfl⟩, fun d => rfl, fun start => ?_⟩
  cases start with
  | none => exact ⟨fun _ => rfl, fun _ => ⟨_, rfl⟩⟩
  | some d =>
    constructor
    · rintro ⟨e, he⟩
      exact Except.noConfusion he
    · intro h
      exact Option.noConfusion h

/-- The descending scan returns `i` when day `i` hits and no later-checked
(larger) index up to `n` hits. -/
theorem scanOverdue_finds (isHit : Nat → Bool) (n i : Nat) (h1 : 1 ≤ i) (h2 : i ≤ n)
    (hhit : isHit i = true)
    (hmax : ∀ j, i < j → j ≤ n → isHit j = false) :
    scanOverdue isHit n = some i := by
  induction n with
  | zero => omega
  | succ k ih =>
    unfold scanOverdue
    by_cases hik : i = k + 1
    · subst hik
      simp [hhit]
    · have hk : isHit (k + 1) = false := hmax (k + 1) (by omega) (Nat.le_refl _)
      simp only [hk, Bool.false_eq_true, if_false]
      exact ih (by omega) (fun j hj1 hj2 => hmax j hj1 (by omega))

/-- Shifting an instant back by `i` whole days shifts its calendar-day index
back by `i`. -/
theorem epochDay_sub_days (t : Int) (i : Nat) :
    epochDay (t - (i : Int) * ONE_DAY_IN_MS) = epochDay t - (i : Int) := by
  unfold epochDay
  rw [Int.fdiv_eq_ediv _ (by norm_num [ONE_DAY_IN_MS]),
      Int.fdiv_eq_ediv _ (by norm_num [ONE_DAY_IN_MS])]
  rw [show t - (i : Int) * ONE_DAY_IN_MS = t + -(i : Int) * ONE_DAY_IN_MS by ring]
  rw [Int.add_mul_ediv_right t (-(i : Int)) (by norm_num [ONE_DAY_IN_MS])]
  ring

/-- Claim C6 (amended): for a recurring, undone, not-yet-overdue task with
`now` and `lastVisit` on different calendar days, the reset pass scans the
days from the last-visit day forward toward `now` (the loop index `i` runs
from `daysSinceLastVisit` down to 1, so the day farthest from `now` is
checked first) and emits exactly one insert-overdue-tag edit carrying the
first — earliest, not closest-to-now — day on which the expression
evaluates `Due` or `Overdue`, stopping at the first hit.  When only one day
in the window hits (as in the spec's fixture: due exactly 3 days before
`now`, last visit 5 days before), the emitted edit is dated that day. -/
theorem taskResetEdits_emits_first_hit (now lastVisit : Int)
    (evalDue : String → Int → DueState) (task : RecurringTask) (d : DueLite)
    (hdue : task.due = some d) (hrec : d.isRecurring = true)
    (hdone : task.done = false) (hov : task.overdue = false)
    (hcount : task.hasCount = false)
    (i : Nat) (h1 : 1 ≤ i) (h2 : (i : Int) ≤ epochDay now - epochDay lastVisit)
    (hhit : isDueOrOverdue (evalDue d.raw (now - (i : Int) * ONE_DAY_IN_MS)) = true)
    (hmax : ∀ j : Nat, i < j → (j : Int) ≤ epochDay now - epochDay lastVisit →
      isDueOrOverdue (evalDue d.raw (now - (j : Int) * ONE_DAY_IN_MS)) = false) :
    taskResetEdits now lastVisit evalDue task =
      [ResetEdit.insertOverdueTag (epochDay now - (i : Int))] := by
  have hneq : (epochDay now == epochDay lastVisit) = false := by
    rw [beq_eq_false_iff_ne]
    omega
  have hscan : scanOverdue
      (fun j => isDueOrOverdue (evalDue d.raw (now - (j : Int) * ONE_DAY_IN_MS)))
      (epochDay now - epochDay lastVisit).toNat = some i := by
    apply scanOverdue_finds _ _ _ h1
    · omega
    · exact hhit
    · intro j hj1 hj2
      exact hmax j hj1 (by omega)
  unfold taskResetEdits
  rw [hdue]
  simp only [hrec, hdone, hov, hcount, hneq, Bool.not_false, Bool.and_self,
    if_true, if_false, Bool.false_eq_true, hscan, List.append_nil]
  rw [epochDay_sub_days]

/-- Claim C6, counterexample to the scan direction: with an expression due
on every day (such as `ed`), `lastVisit` two days before `now`, the code
emits the overdue tag dated the last-visit day (day 8), not the
closest-to-now matching day (day 9) the claim requires. -/
theorem taskResetEdits_scan_direction_counterexample :
    taskResetEdits (10 * ONE_DAY_IN_MS + 3600000) (8 * ONE_DAY_IN_MS)
        (fun _ _ => DueState.due)
        { due := some { raw := "ed", isRecurring := true }, done := false,
          overdue := false, hasCount := false } =
      [ResetEdit.insertOverdueTag 8] ∧ (8 : Int) ≠ 9 := by
  refine ⟨by decide, by decide⟩

/-- Claim C6, witness (the spec's fixture): expression due exactly on day 97
(3 days before `now` = day 100), last visit on day 95: exactly one edit,
dated day 97. -/
theorem taskResetEdits_emits_first_hit_witness :
    taskResetEdits (100 * ONE_DAY_IN_MS) (95 * ONE_DAY_IN_MS)
        (fun _ t => if epochDay t == (97 : Int) then DueState.due else DueState.notDue)
        { due := some { raw := "r", isRecurring := true }, done := false,
          overdue := false, hasCount := false } =
      [ResetEdit.insertOverdueTag 97] := by
  have h := taskResetEdits_emits_first_hit (100 * ONE_DAY_IN_MS) (95 * ONE_DAY_IN_MS)
    (fun _ t => if epochDay t == (97 : Int) then DueState.due else DueState.notDue)
    { due := some { raw := "r", isRecurring := true }, done := false,
      overdue := false, hasCount := false }
    { raw := "r", isRecurring := true }
    rfl rfl rfl rfl rfl 3 (by decide) (by decide) (by decide) ?_
  · rw [h]
    decide
  · intro j hj1 hj2
    have e : epochDay (100 * ONE_DAY_IN_MS) - epochDay (95 * ONE_DAY_IN_MS) = 5 := by decide
    rw [e] at hj2
    have hj : j = 4 ∨ j = 5 := by omega
    rcases hj with hj | hj <;> subst hj <;> decide

/-- Truncating both instants to midnight and then taking the truncated-day
difference computes exactly the difference of calendar-day indices. -/
theorem calcDiffInDays_shortenToDate (a b : Int) :
    calcDiffInDays (shortenToDate a) (shortenToDate b) = epochDay b - epochDay a := by
  unfold calcDiffInDays shortenToDate
  rw [show ONE_DAY_IN_MS * epochDay b - ONE_DAY_IN_MS * epochDay a =
      ONE_DAY_IN_MS * (epochDay b - epochDay a) by ring]
  exact Int.mul_tdiv_cancel_left _ (by norm_num [ONE_DAY_IN_MS])

/-- `epochDay` is monotone. -/
theorem epochDay_mono {a b : Int} (h : a ≤ b) : epochDay a ≤ epochDay b := by
  unfold epochDay
  rw [Int.fdiv_eq_ediv a (by norm_num [ONE_DAY_IN_MS]),
      Int.fdiv_eq_ediv b (by norm_num [ONE_DAY_IN_MS])]
  exact Int.ediv_le_ediv (by norm_num [ONE_DAY_IN_MS]) h

/-- An instant is before a given midnight exactly when its calendar day is
before that day. -/
theorem lt_midnight_iff (n k : Int) : n < ONE_DAY_IN_MS * k ↔ epochDay n < k := by
  unfold epochDay
  rw [Int.fdiv_eq_ediv n (by norm_num [ONE_DAY_IN_MS]), Int.mul_comm]
  exact (Int.ediv_lt_iff_lt_mul (by norm_num [ONE_DAY_IN_MS])).symm

/-- Instants on the same calendar day truncate to the same midnight. -/
theorem shortenToDate_congr {n n' : Int} (h : epochDay n = epochDay n') :
    shortenToDate n = shortenToDate n' := by
  unfold shortenToDate
  rw [h]

/-- Instants on the same calendar day have the same weekday. -/
theorem weekdayOf_congr {n n' : Int} (h : epochDay n = epochDay n') :
    weekdayOf n = weekdayOf n' := by
  unfold weekdayOf
  rw [h]

/-- The weekday branch only looks at the clock's weekday. -/
theorem isDueToday_congr {n n' : Int} (h : epochDay n = epochDay n') (s : List Char) :
    isDueToday n s = isDueToday n' s := by
  unfold isDueToday
  rw [weekdayOf_congr h]

/-- The range branch only looks at the clock's calendar day. -/
theorem isDueBetween_congr {n n' : Int} (h : epochDay n = epochDay n') (d1 d2 : List Char) :
    isDueBetween n d1 d2 = isDueBetween n' d1 d2 := by
  unfold isDueBetween
  rw [h]

/-- The interval branch truncates its target, so it only depends on the
clock's calendar day. -/
theorem isDueWithDateCore_congr {n n' : Int} (h : epochDay n = epochDay n')
    (s : List Char) (start : Int) :
    isDueWithDateCore s start n = isDueWithDateCore s start n' := by
  unfold isDueWithDateCore
  simp only [shortenToDate_congr h]

/-- The exact-date branch, applied to a midnight date object, only depends on
the clock's calendar day. -/
theorem isDueExactDate_midnight_congr {n n' : Int} (h : epochDay n = epochDay n') (k : Int) :
    isDueExactDate n (ONE_DAY_IN_MS * k) = isDueExactDate n' (ONE_DAY_IN_MS * k) := by
  unfold isDueExactDate
  rw [shortenToDate_congr h]
  refine if_congr ?_ rfl rfl
  rw [lt_midnight_iff, lt_midnight_iff, h]

/-- Evaluation of any due expression is unchanged when the ambient clock
moves within one calendar day. -/
theorem parseDueDate_time_congr {now now' : Int} (h : epochDay now = epochDay now')
    (s : List Char) : parseDueDate now s = parseDueDate now' s := by
  unfold parseDueDate
  cases ht : (s == "today".toList) with
  | true => simp only [ht, if_true]
  | false =>
    simp only [ht, Bool.false_eq_true, if_false]
    rcases hsp : splitOnDotDot s with _ | ⟨p1, _ | ⟨p2, rest⟩⟩
    · simp only [hsp]
      rcases hex : execDueWithDate s with _ | ⟨y, m, dd, alg⟩
      · simp only [hex]
        rw [isDueToday_congr h s]
      · simp only [hex]
        rcases alg with _ | a
        · simp only
          have hj : jsDateYMD y (m - 1) dd =
              ONE_DAY_IN_MS *
                (daysFromCivil (y + Int.fdiv (m - 1) 12) (Int.emod (m - 1) 12 + 1) 1 +
                  (dd - 1)) := rfl
          rw [hj, isDueExactDate_midnight_congr h]
        · cases he : execEveryNDay a with
          | false => simp only [he, Bool.false_eq_true, if_false]
          | true =>
            simp only [he, if_true]
            rw [isDueWithDateCore_congr h a]
    · simp only [hsp]
      rcases hex : execDueWithDate s with _ | ⟨y, m, dd, alg⟩
      · simp only [hex]
        rw [isDueToday_congr h s]
      · simp only [hex]
        rcases alg with _ | a
        · simp only
          have hj : jsDateYMD y (m - 1) dd =
              ONE_DAY_IN_MS *
                (daysFromCivil (y + Int.fdiv (m - 1) 12) (Int.emod (m - 1) 12 + 1) 1 +
                  (dd - 1)) := rfl
          rw [hj, isDueExactDate_midnight_congr h]
        · cases he : execEveryNDay a with
          | false => simp only [he, Bool.false_eq_true, if_false]
          | true =>
            simp only [he, if_true]
            rw [isDueWithDateCore_congr h a]
    · simp only [hsp]
      exact isDueBetween_congr h p1 p2

/-- Claim C7: the day difference used by the engine — `calcDiffInDays` of the
two `shortenToDate`-truncated instants — equals the signed difference of
calendar-day indices (sign following `b - a`), and because every due-state
comparison truncates first, moving the clock within a calendar day never
changes the evaluation of any due expression. -/
theorem day_difference_truncation_semantics (a b now now' : Int)
    (h : epochDay now = epochDay now') :
    calcDiffInDays (shortenToDate a) (shortenToDate b) = epochDay b - epochDay a ∧
    (a ≤ b → 0 ≤ calcDiffInDays (shortenToDate a) (shortenToDate b)) ∧
    (b ≤ a → calcDiffInDays (shortenToDate a) (shortenToDate b) ≤ 0) ∧
    (∀ s : List Char, parseDueDate now s = parseDueDate now' s) := by
  refine ⟨calcDiffInDays_shortenToDate a b, ?_, ?_, fun s => parseDueDate_time_congr h s⟩
  · intro hab
    rw [calcDiffInDays_shortenToDate a b]
    have := epochDay_mono hab
    omega
  · intro hba
    rw [calcDiffInDays_shortenToDate a b]
    have := epochDay_mono hba
    omega

/-- Claim C7, witness: noon of day 0 to 1am of day 2 is a whole-day
difference of 2, and evaluating `2018-01-01` at two different times of
Monday 2018-01-01 gives the same result. -/
theorem day_difference_truncation_witness :
    calcDiffInDays (shortenToDate 43200000) (shortenToDate 176400000) = 2 ∧
    parseDueDate (17532 * ONE_DAY_IN_MS) ("2018-01-01".toList) =
      parseDueDate (17532 * ONE_DAY_IN_MS + 3600000) ("2018-01-01".toList) := by
  have h := day_difference_truncation_semantics 43200000 176400000
    (17532 * ONE_DAY_IN_MS) (17532 * ONE_DAY_IN_MS + 3600000) (by decide)
  refine ⟨?_, h.2.2.2 ("2018-01-01".toList)⟩
  rw [h.1]
  decide
